import Mathlib

/-! Verification development for the `walrus` assignment-expression
back-port tool (`src/walrus.py`).  The parso AST interface, the
`Context` rewrite engine and its traversal methods (`_process`,
`_process_module`, `_process_namedexpr_test`, `_concat`), the
`FUNC_TEMPLATE` wrapper template, the `guess_linesep` heuristic and
the top-level `convert` entry point are embedded shallowly as
executable Lean functions, and behavioural properties of the tool are
settled against them. -/

namespace Walrus

/-- Single-quote character (as a one-character string), used by the
embedding of Python `repr` on identifier strings. -/
def squote : String := "\x27"

/-- Python `repr` of an identifier-like string (no quotes, no
backslashes, printable ASCII): wraps it in single quotes.  This is
what the `%(name)r` conversion in `Context._concat` (walrus.py line
260) produces for variable names. -/
def reprStr (s : String) : String := squote ++ s ++ squote

/-- Decides whether the first character list begins with the second. -/
def beginsWith : List Char → List Char → Bool
  | _, [] => true
  | [], _ :: _ => false
  | a :: as, b :: bs => a == b && beginsWith as bs

/-- Number of (possibly overlapping) start positions at which the
nonempty pattern `pat` occurs in the character list. -/
def countOccAux (pat : List Char) : List Char → Nat
  | [] => 0
  | c :: rest => (if beginsWith (c :: rest) pat then 1 else 0) + countOccAux pat rest

/-- Number of occurrences of the pattern string `pat` in `s`. -/
def countOcc (s pat : String) : Nat := countOccAux pat.data s.data

/-- Python `str.endswith` for plain strings. -/
def strEndsWith (s pat : String) : Bool := beginsWith s.data.reverse pat.data.reverse

/-- Worker for `splitlinesKeepends`: `acc` holds the characters of the
current line read so far, in reverse order. -/
def splitlinesAux : List Char → List Char → List String
  | [], acc => if acc.isEmpty then [] else [String.mk acc.reverse]
  | '\r' :: '\n' :: rest, acc => String.mk (acc.reverse ++ ['\r', '\n']) :: splitlinesAux rest []
  | '\r' :: rest, acc => String.mk (acc.reverse ++ ['\r']) :: splitlinesAux rest []
  | '\n' :: rest, acc => String.mk (acc.reverse ++ ['\n']) :: splitlinesAux rest []
  | c :: rest, acc => splitlinesAux rest (c :: acc)

/-- Python `str.splitlines(True)` restricted to the `\r`, `\r\n` and
`\n` line boundaries (the only terminators the classification loop of
`Context.guess_linesep` distinguishes): split into lines, keeping each
line's terminator; an unterminated final chunk is kept as a line. -/
def splitlinesKeepends (s : String) : List String := splitlinesAux s.data []

/-- The line-ending classification loop of `Context.guess_linesep`
(walrus.py lines 313–324): occurrence counts of the three buckets, as
the triple `(pool['\r'], pool['\r\n'], pool['\n'])`.  A line that ends
with neither `\r` nor `\r\n` (including an unterminated final line)
falls into the `\n` bucket, exactly as the source's `else` branch. -/
def countPool : List String → Nat × Nat × Nat
  | [] => (0, 0, 0)
  | line :: rest =>
    let p := countPool rest
    if strEndsWith line "\r" then (p.1 + 1, p.2.1, p.2.2)
    else if strEndsWith line "\r\n" then (p.1, p.2.1 + 1, p.2.2)
    else (p.1, p.2.1, p.2.2 + 1)

/-- Stable insertion into a list sorted by ascending count; together
with `sortPool` this models Python's stable
`sorted(pool, key=lambda k: pool[k])`. -/
def insertByCount (a : String × Nat) : List (String × Nat) → List (String × Nat)
  | [] => [a]
  | b :: bs => if a.2 ≤ b.2 then a :: b :: bs else b :: insertByCount a bs

/-- Python `sorted(pool, key=lambda k: pool[k])` (walrus.py line 326):
the pool's keys in ascending order of count, ties kept in the dict's
insertion order `['\r', '\r\n', '\n']`. -/
def sortPool (l : List (String × Nat)) : List (String × Nat) := l.foldr insertByCount []

/-- Python `str.upper` (character-wise ASCII upper-casing, which is
what `env.upper()` performs on the configured separator values the
source compares against). -/
def strToUpper (s : String) : String := String.mk (s.data.map Char.toUpper)

/-- The environment fallback of `Context.guess_linesep` (walrus.py
lines 330–340): recognises the names CR, CRLF and LF
case-insensitively, then the three literal separators, and otherwise
fails with the source's (verbatim, typo included) invalid-environment
error message.  The `env` argument models the value of
`os.getenv('POSEUR_LINESEP', os.linesep)`. -/
def envFallback (env : String) : Except String String :=
  let env_name := strToUpper env
  if env_name = "CR" then .ok "\r"
  else if env_name = "CRLF" then .ok "\r\n"
  else if env_name = "LF" then .ok "\n"
  else if env = "\r" ∨ env = "\r\n" ∨ env = "\n" then .ok env
  else .error ("invlid line separator " ++ reprStr env)

/-- `Context.guess_linesep` (walrus.py lines 295–340) as a function of
the root node's rendered source `code` and the configured environment
value `env`: count the three line-ending buckets, sort the keys by
ascending count (`sorted(pool, key=lambda k: pool[k])`), return
`sort[0]` when `pool[sort[0]] > pool[sort[1]]`, and otherwise fall
back to the environment value. -/
def guess_linesep (code env : String) : Except String String :=
  let p := countPool (splitlinesKeepends code)
  match sortPool [("\r", p.1), ("\r\n", p.2.1), ("\n", p.2.2)] with
  | s0 :: s1 :: _ => if s0.2 > s1.2 then .ok s0.1 else envFallback env
  | _ => envFallback env

/-- Follows the spec's words (spec §4.3, for comparison with
`guess_linesep`): the bucket with the strictly highest count among the
three line-ending buckets of `code`, if one exists. -/
def specStrictMajority (code : String) : Option String :=
  let p := countPool (splitlinesKeepends code)
  if p.2.1 < p.1 ∧ p.2.2 < p.1 then some "\r"
  else if p.1 < p.2.1 ∧ p.2.2 < p.2.1 then some "\r\n"
  else if p.1 < p.2.2 ∧ p.2.1 < p.2.2 then some "\n"
  else none

/-- A parso syntax node: a leaf carrying its type tag, its whitespace
prefix text and its token value; an interior `PythonNode` with a type
tag and ordered children; or the module root
(`parso.python.tree.Module`, whose parso type tag is `file_input`). -/
inductive Node where
  | leaf (typ : String) (pre : String) (value : String)
  | interior (typ : String) (children : List Node)
  | module (children : List Node)

mutual

/-- parso `get_code`: the exact source text of a subtree — a leaf
renders its prefix followed by its value, an interior node or the
module the concatenation of its children. -/
def Node.get_code : Node → String
  | .leaf _ p v => p ++ v
  | .interior _ cs => getCodeList cs
  | .module cs => getCodeList cs

/-- Concatenated `get_code` of a child list. -/
def getCodeList : List Node → String
  | [] => ""
  | c :: cs => Node.get_code c ++ getCodeList cs

end

/-- The parso `type` attribute of a node. -/
def nodeType : Node → String
  | .leaf t _ _ => t
  | .interior t _ => t
  | .module _ => "file_input"

/-- The parso `value` attribute, present only on leaves; accessing it
on an interior node is a Python `AttributeError`. -/
def leafValue : Node → Except String String
  | .leaf _ _ v => .ok v
  | _ => .error "node has no value attribute"

/-- One record of `Context._func` (walrus.py line 234):
`dict(name=name, expr=expr, uuid=nuid)`. -/
structure Wrapper where
  name : String
  expr : String
  uuid : String
deriving Repr, DecidableEq

/-- The mutable state of one `Context` traversal (walrus.py lines
162–170): the insertion flag `_insert` (never toggled anywhere in the
source), the `_prefix` and `_suffix` accumulators, the captured-name
list `_vars`, the wrapper records `_func`, and the position `ctr` in
the stream of `uuid.uuid4().hex` values. -/
structure CtxState where
  insert : Bool
  pre : String
  suf : String
  vars : List String
  funcs : List Wrapper
  ctr : Nat
deriving Repr, DecidableEq

/-- Models the stream of `uuid.uuid4().hex` values consumed during one
conversion: the `n`-th call yields `uuidHex n`.  This captures the
source's only assumption on `uuid4`, namely that successive values are
distinct (`uuidHex` is injective since its results have pairwise
different lengths). -/
def uuidHex (n : Nat) : String := String.mk (List.replicate (n + 1) 'f')

/-- A fresh `Context` state (walrus.py lines 162–170), positioned at
index `ctr` of the uuid stream. -/
def initState (ctr : Nat) : CtxState :=
  { insert := true, pre := "", suf := "", vars := [], funcs := [], ctr := ctr }

/-- Append `code` to whichever buffer is active: `_prefix` while
`_insert` holds, `_suffix` otherwise (walrus.py lines 197–200 and
227–230). -/
def CtxState.put (st : CtxState) (code : String) : CtxState :=
  if st.insert then { st with pre := st.pre ++ code } else { st with suf := st.suf ++ code }

/-- `FUNC_TEMPLATE` of walrus.py (lines 84–90) with the `%`-style
placeholders `%(name)s`, `%(uuid)s`, `%(tabsize)s`, `%(keyword)s` and
`%(expr)s` filled in, as the line list that `splitlines()` produces
there.  Python's `%`-formatting is a single pass over the template, so
filling each line separately is exact; note that the source passes the
integer `self._tabsize` for `%(tabsize)s`, so `tabsize` here receives
`str(self._tabsize)`, not a run of spaces. -/
def FUNC_TEMPLATE (keyword tabsize name expr uuid : String) : List String :=
  ["",
   "def __walrus_wrapper_" ++ name ++ "_" ++ uuid ++ "():",
   tabsize ++ "\"\"\"Wrapper function for assignment expression `" ++ expr ++ "`.\"\"\"",
   tabsize ++ keyword ++ " " ++ name,
   tabsize ++ name ++ " = " ++ expr,
   tabsize ++ "return " ++ name]

/-- Python `'\t'.expandtabs(col)`: a run of `col` spaces (and the
empty string at tab size 0). -/
def expandtabs (col : Nat) : String := String.mk (List.replicate col ' ')

/-- The scoping keyword chosen in `Context._concat` (walrus.py line
263): `keyword = 'nonlocal' if self._column > 0 else 'global'`. -/
def scopeKeyword (col : Nat) : String := if col > 0 then "nonlocal" else "global"

/-- One declaration statement of `Context._concat` (walrus.py lines
259–262): the filled template
`'%(indent)s%(name)s = locales().get(%(name)r)%(linesep)s'`. -/
def declLine (indent name ls : String) : String :=
  indent ++ name ++ " = locales().get(" ++ reprStr name ++ ")" ++ ls

/-- Python string comparison `a <= b` on the underlying code points:
true iff the first character list is lexicographically at most the
second. -/
def charListLe : List Char → List Char → Bool
  | [], _ => true
  | _ :: _, [] => false
  | a :: as, b :: bs => decide (a < b) || (a == b && charListLe as bs)

/-- Python `a <= b` on strings (code-point lexicographic order, which
is what `sorted` uses on the captured names and wrapper names). -/
def strLe (a b : String) : Bool := charListLe a.data b.data

/-- Stable insertion of a string into an ascending sorted list. -/
def insertSorted (a : String) : List String → List String
  | [] => [a]
  | b :: bs => if strLe a b then a :: b :: bs else b :: insertSorted a bs

/-- Python `sorted` on strings: stable, ascending lexicographic. -/
def sortStrings (l : List String) : List String := l.foldr insertSorted []

/-- Stable insertion of a wrapper record into a list sorted by name. -/
def insertWrapper (a : Wrapper) : List Wrapper → List Wrapper
  | [] => [a]
  | b :: bs => if strLe a.name b.name then a :: b :: bs else b :: insertWrapper a bs

/-- Python `sorted(self._func, key=lambda func: func['name'])`
(walrus.py line 264): stable ascending sort by wrapper name. -/
def sortWrappers (l : List Wrapper) : List Wrapper := l.foldr insertWrapper []

/-- The names declared by `Context._concat` (walrus.py line 259):
`sorted(set(self._vars))`. -/
def declNames (st : CtxState) : List String := sortStrings st.vars.dedup

/-- One rendered wrapper function of `Context._concat` (walrus.py
lines 264–267): `FUNC_TEMPLATE` joined with `linesep + indent` and
`%`-substituted.  `tabsize` receives the decimal rendering of the
integer tab size (see `FUNC_TEMPLATE`). -/
def renderFunc (ls indent keyword tabsize : String) (w : Wrapper) : String :=
  String.intercalate (ls ++ indent) (FUNC_TEMPLATE keyword tabsize w.name w.expr w.uuid)

/-- `Context._concat` (walrus.py lines 252–270): the final buffer is
the prefix, then one declaration per distinct captured name in sorted
order, then the wrapper functions sorted by name (each terminated by
the line separator), then the suffix.  `indent` is
`'\t'.expandtabs(self._column)`. -/
def concatBuffer (col ts : Nat) (ls : String) (st : CtxState) : String :=
  let indent := expandtabs col
  let decls := String.join ((declNames st).map fun v => declLine indent v ls)
  let funcs := String.join ((sortWrappers st.funcs).map fun w =>
    renderFunc ls indent (scopeKeyword col) (toString ts) w ++ ls)
  st.pre ++ decls ++ funcs ++ st.suf

/-- The tail of `Context._process_namedexpr_test` (walrus.py lines
220–234) once the nested Context has produced its final state `stE`:
form the wrapper call from the fresh uuid drawn at stream position
`st.ctr`, append it to the active buffer, and record the captured name
and the wrapper spec whose expression source is the nested context's
assembled string. -/
def namedexprUpdate (st : CtxState) (name : String) (ts : Nat) (ls : String) (col : Nat)
    (stE : CtxState) : CtxState :=
  let nuid := uuidHex st.ctr
  let expr := concatBuffer col ts ls stE
  let st2 := CtxState.put { st with ctr := stE.ctr }
    ("__walrus_wrapper_" ++ name ++ "_" ++ nuid ++ "()")
  { st2 with vars := st2.vars ++ [name],
             funcs := st2.funcs ++ [{ name := name, expr := expr, uuid := nuid }] }

/-- The four traversal entry points of the rewrite engine, tagged so
that the whole mutually recursive traversal is one function: `node` is
`Context._process` applied to a node, `children` the loop over a child
list inside `_process`, `child` the `getattr` handler dispatch on one
child, and `namedexpr_test` the handler
`Context._process_namedexpr_test`. -/
inductive Walk where
  | node (n : Node)
  | children (l : List Node)
  | child (n : Node)
  | namedexpr_test (n : Node)

/-- The `Context` traversal of walrus.py (lines 175–234), with an
explicit recursion-depth bound `fuel` (any bound larger than the
nesting depth of the tree reproduces the source's behaviour; Python
instead relies on its own recursion limit).

`Walk.node` is `_process`: a `Module` is passed to the empty-bodied
`_process_module` (walrus.py lines 202–208) and contributes nothing; a
node with children has each child dispatched by type; a leaf appends
its exact code to the active buffer.

`Walk.child` is the `getattr(self, '_process_%s' % child.type,
self._process)` dispatch: `namedexpr_test` goes to its handler,
`funcdef` and `classdef` to empty-bodied handlers (walrus.py lines
236–250), everything else recursively to `_process`.

`Walk.namedexpr_test` is `_process_namedexpr_test` (walrus.py lines
210–234): split the node into name, operator and expression; draw a
fresh uuid; rewrite the expression subtree by a nested `Context` at
the same indentation (`self._indent` is initialised to `self._column`
and never reassigned) whose full `.string` result becomes the recorded
expression source; append the wrapper call to the active buffer; and
record the captured name and the wrapper spec.  A `namedexpr_test`
node without the three-children shape would raise in Python and is an
error here. -/
def process : Nat → Nat → String → Nat → CtxState → Walk → Except String CtxState
  | 0, _, _, _, _, _ => .error "maximum recursion depth exceeded"
  | fuel + 1, ts, ls, col, st, w =>
    match w with
    | .node n =>
      match n with
      | .module _ => .ok st
      | .interior _ cs => process fuel ts ls col st (.children cs)
      | .leaf _ p v => .ok (st.put (p ++ v))
    | .children l =>
      match l with
      | [] => .ok st
      | c :: cs => do
        let st2 ← process fuel ts ls col st (.child c)
        process fuel ts ls col st2 (.children cs)
    | .child c =>
      if nodeType c = "namedexpr_test" then process fuel ts ls col st (.namedexpr_test c)
      else if nodeType c = "funcdef" then .ok st
      else if nodeType c = "classdef" then .ok st
      else process fuel ts ls col st (.node c)
    | .namedexpr_test n =>
      match n with
      | .interior _ [nameNode, _, exprNode] => do
        let name ← leafValue nameNode
        let stE ← process fuel ts ls col (initState (st.ctr + 1)) (.node exprNode)
        .ok (namedexprUpdate st name ts ls col stE)
      | _ => .error "namedexpr_test node of unexpected shape"

/-- Constructing `Context(node, col, ts, ls)` and reading its
`.string` property: run `_process`, then `_concat`, and return the
final buffer together with the advanced uuid-stream position. -/
def contextString (fuel : Nat) (node : Node) (col ts : Nat) (ls : String) (ctr : Nat) :
    Except String (String × Nat) := do
  let st ← process fuel ts ls col (initState ctr) (.node node)
  .ok (concatBuffer col ts ls st, st.ctr)

/-- `convert` of walrus.py (lines 343–365) after the parse step: build
`Context(module)` with column 0 and read its `.string`.  The tab size
`ts` stands for the resolved result of `Context.guess_tabsize` (an
integer, environment-configurable with default 4), and `env` for the
configured line-separator value consulted by `guess_linesep`. -/
def convert (fuel : Nat) (m : Node) (ts : Nat) (env : String) : Except String String := do
  let ls ← guess_linesep m.get_code env
  let p ← contextString fuel m 0 ts ls 0
  .ok p.1

end Walrus

namespace Walrus

/-- Embedding of the parso tree of the source text `pass\n` (a
construct-free module): a `simple_stmt` holding the `pass` keyword and
its newline, followed by the end marker. -/
def passModule : Node :=
  .module [ .interior "simple_stmt" [ .leaf "keyword" "" "pass", .leaf "newline" "" "\n" ],
            .leaf "endmarker" "" "" ]

/-- The `namedexpr_test` node of `x := f()`: the target name, the
walrus operator and the call expression. -/
def walrusNE : Node :=
  .interior "namedexpr_test"
    [ .leaf "name" "" "x", .leaf "operator" " " ":=",
      .interior "power" [ .leaf "name" " " "f",
        .interior "trailer" [ .leaf "operator" "" "(", .leaf "operator" "" ")" ] ] ]

/-- Embedding of the parso tree of the source text `(x := f())\n`: a
module containing exactly one assignment expression. -/
def walrusModule : Node :=
  .module [ .interior "simple_stmt"
      [ .interior "atom" [ .leaf "operator" "" "(", walrusNE, .leaf "operator" "" ")" ],
        .leaf "newline" "" "\n" ],
    .leaf "endmarker" "" "" ]

/-- The `namedexpr_test` node of `a := 1`. -/
def c5ne1 : Node :=
  .interior "namedexpr_test"
    [ .leaf "name" "" "a", .leaf "operator" " " ":=", .leaf "number" " " "1" ]

/-- The `namedexpr_test` node of `a := 2`. -/
def c5ne2 : Node :=
  .interior "namedexpr_test"
    [ .leaf "name" "" "a", .leaf "operator" " " ":=", .leaf "number" " " "2" ]

/-- Embedding of the parso `arith_expr` of `(a := 1) + (a := 2)`: two
occurrences of the construct with the same target name in one scope. -/
def c5expr : Node :=
  .interior "arith_expr"
    [ .interior "atom" [ .leaf "operator" "" "(", c5ne1, .leaf "operator" "" ")" ],
      .leaf "operator" " " "+",
      .interior "atom" [ .leaf "operator" " " "(", c5ne2, .leaf "operator" "" ")" ] ]

/-- The inner `namedexpr_test` node of `x := 1`. -/
def c6inner : Node :=
  .interior "namedexpr_test"
    [ .leaf "name" "" "x", .leaf "operator" " " ":=", .leaf "number" " " "1" ]

/-- The `arith_expr` of `(x := 1) + 1`, the expression subtree of the
outer occurrence in the nested example. -/
def c6arith : Node :=
  .interior "arith_expr"
    [ .interior "atom" [ .leaf "operator" "" "(", c6inner, .leaf "operator" "" ")" ],
      .leaf "operator" " " "+", .leaf "number" " " "1" ]

/-- The outer `namedexpr_test` node of `y := (x := 1) + 1`. -/
def c6outer : Node :=
  .interior "namedexpr_test"
    [ .leaf "name" "" "y", .leaf "operator" " " ":=", c6arith ]

/-- Embedding of the parso `atom` of `(y := (x := 1) + 1)`: one
occurrence of the construct nested inside another. -/
def c6atom : Node :=
  .interior "atom" [ .leaf "operator" "" "(", c6outer, .leaf "operator" "" ")" ]

/-- Embedding of the parso `atom` of `(a := 1)`: one occurrence of the
construct, used for runs at various indentation columns. -/
def c8atom : Node :=
  .interior "atom" [ .leaf "operator" "" "(", c5ne1, .leaf "operator" "" ")" ]

/-- The wrapper records of a traversal segment draw their unique ids
from strictly increasing positions of the uuid stream, all inside the
half-open interval `[lo, hi)`. -/
inductive UuidSpan : Nat → Nat → List Wrapper → Prop where
  | nil {lo hi : Nat} (h : lo ≤ hi) : UuidSpan lo hi []
  | cons {lo hi k : Nat} {w : Wrapper} {ws : List Wrapper} (hlo : lo ≤ k) (hhi : k < hi)
      (hu : w.uuid = uuidHex k) (rest : UuidSpan (k + 1) hi ws) : UuidSpan lo hi (w :: ws)

/-- The final traversal state of the two-occurrences example
`(a := 1) + (a := 2)`. -/
def c5state : CtxState :=
  ((process 50 4 "
" 0 (initState 0) (Walk.node c5expr)).toOption).getD (initState 0)

end Walrus
namespace Walrus

/-- Inserting into a list is a permutation of consing. -/
theorem insertSorted_perm (a : String) (l : List String) :
    List.Perm (insertSorted a l) (a :: l) := by
  induction l with
  | nil => exact List.Perm.refl _
  | cons b bs ih =>
    unfold insertSorted
    split
    · exact List.Perm.refl _
    · exact (List.Perm.cons b ih).trans (List.Perm.swap a b bs)

/-- `sortStrings` permutes its input. -/
theorem sortStrings_perm (l : List String) : List.Perm (sortStrings l) l := by
  induction l with
  | nil => exact List.Perm.refl _
  | cons a as ih =>
    have : sortStrings (a :: as) = insertSorted a (sortStrings as) := rfl
    rw [this]
    exact (insertSorted_perm a (sortStrings as)).trans (List.Perm.cons a ih)

/-- Unfolding characterisation of `charListLe` on two cons cells. -/
theorem charListLe_cons_iff {a b : Char} {as bs : List Char} :
    charListLe (a :: as) (b :: bs) = true ↔ a < b ∨ (a = b ∧ charListLe as bs = true) := by
  simp [charListLe, Bool.or_eq_true, Bool.and_eq_true, decide_eq_true_eq, beq_iff_eq]

/-- `charListLe` is total. -/
theorem charListLe_total : ∀ l1 l2 : List Char, charListLe l1 l2 = true ∨ charListLe l2 l1 = true
  | [], _ => Or.inl rfl
  | _ :: _, [] => Or.inr rfl
  | a :: as, b :: bs => by
    rcases lt_trichotomy a b with h | h | h
    · exact Or.inl (charListLe_cons_iff.mpr (Or.inl h))
    · rcases charListLe_total as bs with ih | ih
      · exact Or.inl (charListLe_cons_iff.mpr (Or.inr ⟨h, ih⟩))
      · exact Or.inr (charListLe_cons_iff.mpr (Or.inr ⟨h.symm, ih⟩))
    · exact Or.inr (charListLe_cons_iff.mpr (Or.inl h))

/-- `charListLe` is transitive. -/
theorem charListLe_trans : ∀ {l1 l2 l3 : List Char}, charListLe l1 l2 = true →
    charListLe l2 l3 = true → charListLe l1 l3 = true
  | [], _, _, _, _ => rfl
  | _ :: _, [], _, h1, _ => by simp [charListLe] at h1
  | _ :: _, _ :: _, [], _, h2 => by simp [charListLe] at h2
  | a :: as, b :: bs, c :: cs, h1, h2 => by
    rcases charListLe_cons_iff.mp h1 with hab | ⟨hab, h1x⟩
    · rcases charListLe_cons_iff.mp h2 with hbc | ⟨hbc, h2x⟩
      · exact charListLe_cons_iff.mpr (Or.inl (lt_trans hab hbc))
      · exact charListLe_cons_iff.mpr (Or.inl (lt_of_lt_of_eq hab hbc))
    · rcases charListLe_cons_iff.mp h2 with hbc | ⟨hbc, h2x⟩
      · exact charListLe_cons_iff.mpr (Or.inl (lt_of_eq_of_lt hab hbc))
      · exact charListLe_cons_iff.mpr (Or.inr ⟨hab.trans hbc, charListLe_trans h1x h2x⟩)

/-- `strLe` is total. -/
theorem strLe_total (a b : String) : strLe a b = true ∨ strLe b a = true :=
  charListLe_total a.data b.data

/-- `strLe` is transitive. -/
theorem strLe_trans {a b c : String} (h1 : strLe a b = true) (h2 : strLe b c = true) :
    strLe a c = true :=
  charListLe_trans h1 h2

/-- Inserting into a sorted list keeps it sorted. -/
theorem insertSorted_sorted (a : String) (l : List String)
    (h : l.Sorted (fun x y => strLe x y = true)) :
    (insertSorted a l).Sorted (fun x y => strLe x y = true) := by
  induction l with
  | nil => simp [insertSorted]
  | cons b bs ih =>
    rw [List.sorted_cons] at h
    obtain ⟨hb, hbs⟩ := h
    unfold insertSorted
    split
    · rename_i hab
      rw [List.sorted_cons]
      refine ⟨?_, ?_⟩
      · intro x hx
        rcases List.mem_cons.mp hx with rfl | hx
        · exact hab
        · exact strLe_trans hab (hb x hx)
      · rw [List.sorted_cons]
        exact ⟨hb, hbs⟩
    · rename_i hab
      rw [List.sorted_cons]
      refine ⟨?_, ih hbs⟩
      intro x hx
      have hmem := (insertSorted_perm a bs).mem_iff.mp hx
      have hba : strLe b a = true := (strLe_total a b).resolve_left hab
      rcases List.mem_cons.mp hmem with rfl | hx2
      · exact hba
      · exact hb x hx2

/-- `sortStrings` sorts by the code-point order. -/
theorem sortStrings_sorted (l : List String) :
    (sortStrings l).Sorted (fun x y => strLe x y = true) := by
  induction l with
  | nil => simp [sortStrings]
  | cons a as ih => exact insertSorted_sorted a (sortStrings as) ih

/-- The name list emitted by the declaration loop of `_concat`
contains no duplicates: `set` semantics on captured names. -/
theorem declNames_nodup (st : CtxState) : (declNames st).Nodup :=
  (sortStrings_perm st.vars.dedup).nodup_iff.mpr (List.nodup_dedup st.vars)

/-- The name list emitted by the declaration loop of `_concat` is in
ascending lexicographic order. -/
theorem declNames_sorted (st : CtxState) :
    (declNames st).Sorted (fun x y => strLe x y = true) :=
  sortStrings_sorted st.vars.dedup

/-- The majority branch of `guess_linesep` is dead code: the source
sorts the pool keys by ascending count, so `pool[sort[0]]` is the
minimum and the test `pool[sort[0]] > pool[sort[1]]` can never hold;
the environment fallback is therefore always consulted. -/
theorem guess_linesep_eq_envFallback (code env : String) :
    guess_linesep code env = envFallback env := by
  unfold guess_linesep
  generalize countPool (splitlinesKeepends code) = p
  obtain ⟨m, n, k⟩ := p
  by_cases h1 : n ≤ k <;> by_cases h2 : m ≤ n <;> by_cases h3 : m ≤ k <;>
    simp only [sortPool, List.foldr_cons, List.foldr_nil, insertByCount, h1, h2, h3,
               ite_true, ite_false] <;>
    rw [if_neg (by omega)]

/-- Appending to the active buffer touches neither the wrapper list
nor the uuid-stream position. -/
theorem put_funcs (st : CtxState) (s : String) : (st.put s).funcs = st.funcs := by
  unfold CtxState.put
  split <;> rfl

/-- Appending to the active buffer leaves the uuid position fixed. -/
theorem put_ctr (st : CtxState) (s : String) : (st.put s).ctr = st.ctr := by
  unfold CtxState.put
  split <;> rfl

/-- The wrapper list recorded by `namedexprUpdate`: the incoming
wrappers plus one new record drawn at stream position `st.ctr`. -/
theorem namedexprUpdate_funcs (st : CtxState) (name : String) (ts : Nat) (ls : String)
    (col : Nat) (stE : CtxState) :
    (namedexprUpdate st name ts ls col stE).funcs
      = st.funcs ++ [{ name := name, expr := concatBuffer col ts ls stE,
                       uuid := uuidHex st.ctr }] := by
  simp [namedexprUpdate, put_funcs]

/-- After `namedexprUpdate` the uuid position is the nested context's
final position. -/
theorem namedexprUpdate_ctr (st : CtxState) (name : String) (ts : Nat) (ls : String)
    (col : Nat) (stE : CtxState) :
    (namedexprUpdate st name ts ls col stE).ctr = stE.ctr := by
  simp [namedexprUpdate, put_ctr]

/-- A span's bounds are ordered. -/
theorem UuidSpan_le {lo hi : Nat} {ws : List Wrapper} (h : UuidSpan lo hi ws) : lo ≤ hi := by
  cases h with
  | nil h => exact h
  | cons hlo hhi hu rest => exact le_trans hlo (le_of_lt hhi)

/-- A span may be widened downward. -/
theorem UuidSpan_mono_lo {lo lo' hi : Nat} {ws : List Wrapper} (hle : lo' ≤ lo)
    (h : UuidSpan lo hi ws) : UuidSpan lo' hi ws := by
  cases h with
  | nil h => exact .nil (le_trans hle h)
  | cons hlo hhi hu rest => exact .cons (le_trans hle hlo) hhi hu rest

/-- Adjacent spans concatenate. -/
theorem UuidSpan_append {lo mid hi : Nat} {ws1 ws2 : List Wrapper}
    (h1 : UuidSpan lo mid ws1) (h2 : UuidSpan mid hi ws2) :
    UuidSpan lo hi (ws1 ++ ws2) := by
  induction h1 with
  | nil h => exact UuidSpan_mono_lo h h2
  | cons hlo hhi hu rest ih =>
    exact .cons hlo (lt_of_lt_of_le hhi (UuidSpan_le h2)) hu (ih h2)

/-- Every wrapper of a span has its uuid at some position inside the
span's interval. -/
theorem UuidSpan_mem {lo hi : Nat} {ws : List Wrapper} {w : Wrapper}
    (h : UuidSpan lo hi ws) (hmem : w ∈ ws) :
    ∃ k, lo ≤ k ∧ k < hi ∧ w.uuid = uuidHex k := by
  revert hmem
  induction h with
  | nil h => intro hmem; cases hmem
  | @cons lo hi k w0 ws hlo hhi hu rest ih =>
    intro hmem
    rcases List.mem_cons.mp hmem with rfl | hmem2
    · exact ⟨k, hlo, hhi, hu⟩
    · obtain ⟨k2, hk2, hh2, hu2⟩ := ih hmem2
      exact ⟨k2, le_trans hlo (le_trans (Nat.le_succ _) hk2), hh2, hu2⟩

/-- The uuid supply is injective: distinct positions yield distinct
hex strings (their lengths differ). -/
theorem uuidHex_inj {m n : Nat} (h : uuidHex m = uuidHex n) : m = n := by
  have hlen := congrArg (fun s => s.data.length) h
  simp only [uuidHex, List.length_replicate] at hlen
  omega

/-- The uuids of a span's wrappers are pairwise distinct. -/
theorem UuidSpan_nodup {lo hi : Nat} {ws : List Wrapper} (h : UuidSpan lo hi ws) :
    (ws.map Wrapper.uuid).Nodup := by
  induction h with
  | nil h => exact List.nodup_nil
  | @cons lo hi k w0 ws hlo hhi hu rest ih =>
    rw [List.map_cons, List.nodup_cons]
    refine ⟨?_, ih⟩
    intro hmem
    obtain ⟨w2, hw2, hequ⟩ := List.mem_map.mp hmem
    obtain ⟨k2, hk2, _, hu2⟩ := UuidSpan_mem rest hw2
    have hk : k = k2 := by
      refine uuidHex_inj ?_
      rw [← hu, ← hequ]
      exact hu2
    omega

/-- Invariant of the whole traversal: a successful run extends the
wrapper list by records whose uuids are freshly drawn, in strictly
increasing stream positions between the starting and final counter. -/
theorem process_uuidSpan : ∀ (fuel ts : Nat) (ls : String) (col : Nat) (st : CtxState)
    (w : Walk) (st' : CtxState), process fuel ts ls col st w = Except.ok st' →
    ∃ new, st'.funcs = st.funcs ++ new ∧ UuidSpan st.ctr st'.ctr new := by
  intro fuel
  induction fuel with
  | zero => intro ts ls col st w st' h; simp [process] at h
  | succ fuel ih =>
    intro ts ls col st w st' h
    cases w with
    | node n =>
      cases n with
      | module cs =>
        have h2 : Except.ok st = Except.ok st' := h
        injection h2 with h3
        subst h3
        exact ⟨[], (List.append_nil _).symm, UuidSpan.nil (Nat.le_refl _)⟩
      | interior ty cs =>
        have h2 : process fuel ts ls col st (.children cs) = Except.ok st' := h
        exact ih ts ls col st (.children cs) st' h2
      | leaf ty p v =>
        have h2 : Except.ok (st.put (p ++ v)) = Except.ok st' := h
        injection h2 with h3
        subst h3
        refine ⟨[], ?_, ?_⟩
        · rw [put_funcs, List.append_nil]
        · show UuidSpan st.ctr (st.put (p ++ v)).ctr []
          rw [put_ctr]
          exact UuidSpan.nil (Nat.le_refl _)
    | children l =>
      cases l with
      | nil =>
        have h2 : Except.ok st = Except.ok st' := h
        injection h2 with h3
        subst h3
        exact ⟨[], (List.append_nil _).symm, UuidSpan.nil (Nat.le_refl _)⟩
      | cons c cs =>
        have h2 : Except.bind (process fuel ts ls col st (.child c))
            (fun st2 => process fuel ts ls col st2 (.children cs)) = Except.ok st' := h
        cases hc : process fuel ts ls col st (.child c) with
        | error e =>
          rw [hc] at h2
          simp [Except.bind] at h2
        | ok st2 =>
          rw [hc] at h2
          have h3 : process fuel ts ls col st2 (.children cs) = Except.ok st' := h2
          obtain ⟨n1, hf1, hs1⟩ := ih ts ls col st (.child c) st2 hc
          obtain ⟨n2, hf2, hs2⟩ := ih ts ls col st2 (.children cs) st' h3
          refine ⟨n1 ++ n2, ?_, UuidSpan_append hs1 hs2⟩
          rw [hf2, hf1, List.append_assoc]
    | child c =>
      have h2 : (if nodeType c = "namedexpr_test"
          then process fuel ts ls col st (.namedexpr_test c)
          else if nodeType c = "funcdef" then Except.ok st
          else if nodeType c = "classdef" then Except.ok st
          else process fuel ts ls col st (.node c)) = Except.ok st' := h
      split at h2
      · exact ih ts ls col st (.namedexpr_test c) st' h2
      · split at h2
        · injection h2 with h3
          subst h3
          exact ⟨[], (List.append_nil _).symm, UuidSpan.nil (Nat.le_refl _)⟩
        · split at h2
          · injection h2 with h3
            subst h3
            exact ⟨[], (List.append_nil _).symm, UuidSpan.nil (Nat.le_refl _)⟩
          · exact ih ts ls col st (.node c) st' h2
    | namedexpr_test n =>
      cases n with
      | leaf t p v =>
        have h2 : (Except.error "namedexpr_test node of unexpected shape"
            : Except String CtxState) = Except.ok st' := h
        cases h2
      | module cs =>
        have h2 : (Except.error "namedexpr_test node of unexpected shape"
            : Except String CtxState) = Except.ok st' := h
        cases h2
      | interior ty cs =>
        rcases cs with _ | ⟨n1, _ | ⟨n2, _ | ⟨n3, _ | ⟨n4, rest⟩⟩⟩⟩
        · have h2 : (Except.error "namedexpr_test node of unexpected shape"
              : Except String CtxState) = Except.ok st' := h
          cases h2
        · have h2 : (Except.error "namedexpr_test node of unexpected shape"
              : Except String CtxState) = Except.ok st' := h
          cases h2
        · have h2 : (Except.error "namedexpr_test node of unexpected shape"
              : Except String CtxState) = Except.ok st' := h
          cases h2
        · cases n1 with
          | module cs1 =>
            have h2 : (Except.error "node has no value attribute"
                : Except String CtxState) = Except.ok st' := h
            cases h2
          | interior t1 cs1 =>
            have h2 : (Except.error "node has no value attribute"
                : Except String CtxState) = Except.ok st' := h
            cases h2
          | leaf t1 p1 v1 =>
            have h3 : Except.bind (process fuel ts ls col (initState (st.ctr + 1)) (.node n3))
                (fun stE => Except.ok (namedexprUpdate st v1 ts ls col stE))
                = Except.ok st' := h
            cases hE : process fuel ts ls col (initState (st.ctr + 1)) (.node n3) with
            | error e =>
              rw [hE] at h3
              simp [Except.bind] at h3
            | ok stE =>
              rw [hE] at h3
              have h4 : Except.ok (namedexprUpdate st v1 ts ls col stE)
                  = Except.ok st' := h3
              injection h4 with h5
              subst h5
              obtain ⟨nE, hfE, hsE⟩ := ih ts ls col (initState (st.ctr + 1)) (.node n3) stE hE
              have hle : st.ctr + 1 ≤ stE.ctr := UuidSpan_le hsE
              refine ⟨[⟨v1, concatBuffer col ts ls stE, uuidHex st.ctr⟩], ?_, ?_⟩
              · rw [namedexprUpdate_funcs]
              · show UuidSpan st.ctr (namedexprUpdate st v1 ts ls col stE).ctr _
                rw [namedexprUpdate_ctr]
                exact UuidSpan.cons (Nat.le_refl _) (by omega) rfl (UuidSpan.nil hle)
        · have h2 : (Except.error "namedexpr_test node of unexpected shape"
              : Except String CtxState) = Except.ok st' := h
          cases h2

/-- Corollary: the wrapper uuids recorded by any successful traversal
from a fresh state are pairwise distinct. -/
theorem process_uuids_nodup (fuel ts : Nat) (ls : String) (col ctr : Nat)
    (w : Walk) (st' : CtxState)
    (h : process fuel ts ls col (initState ctr) w = Except.ok st') :
    (st'.funcs.map Wrapper.uuid).Nodup := by
  obtain ⟨new, hf, hs⟩ := process_uuidSpan fuel ts ls col (initState ctr) w st' h
  rw [hf]
  simpa using UuidSpan_nodup hs

end Walrus
namespace Walrus

set_option maxRecDepth 1000000 in
/-- C1: the spec claims `convert` returns its input unchanged for any
successfully parsed source containing no assignment expression.  On
the code this fails: `_process_module` has an empty body, so the
construct-free module `pass\n` converts to the empty string instead of
its own source text. -/
theorem convert_drops_construct_free_source :
    Node.get_code passModule = "pass\n"
    ∧ countOcc (Node.get_code passModule) ":=" = 0
    ∧ convert 50 passModule 4 "LF" = Except.ok ""
    ∧ ("" : String) ≠ "pass\n" :=
  ⟨rfl, rfl, rfl, by decide⟩

set_option maxRecDepth 1000000 in
/-- C2: the spec claims the output of `convert` for `(x := f())`
contains exactly one helper definition, one declaration line for `x`
and one substituted call.  On the code `convert` returns the empty
string — which contains none of the three — because `_process_module`
never walks the module's children. -/
theorem convert_emits_nothing_for_single_occurrence :
    Node.get_code walrusModule = "(x := f())\n"
    ∧ countOcc (Node.get_code walrusModule) ":=" = 1
    ∧ convert 50 walrusModule 4 "LF" = Except.ok ""
    ∧ countOcc "" "def __walrus_wrapper_" = 0
    ∧ countOcc "" "locales" = 0
    ∧ countOcc "" "__walrus_wrapper_x_" = 0 :=
  ⟨rfl, rfl, rfl, rfl, rfl, rfl⟩

set_option maxRecDepth 1000000 in
/-- C3: the spec claims line-separator inference returns the bucket
with the strictly highest count and consults the environment only on a
tie.  On the code the source `a\r\nb\r\n` has a strict `\r\n`
majority, yet `guess_linesep` returns the configured value `\n` (and
even raises on an invalid configured value), because the keys are
sorted by ascending count and the majority test compares the two
smallest buckets. -/
theorem linesep_majority_never_used :
    specStrictMajority "a\r\nb\r\n" = some "\r\n"
    ∧ guess_linesep "a\r\nb\r\n" "LF" = Except.ok "\n"
    ∧ ("\n" : String) ≠ "\r\n"
    ∧ guess_linesep "a\r\nb\r\n" "\t"
        = Except.error ("invlid line separator " ++ reprStr "\t") :=
  ⟨rfl, rfl, by decide, rfl⟩

set_option maxRecDepth 1000000 in
/-- C4: the spec claims each body line of a rendered helper is
indented by exactly `tab_size` spaces relative to the `def` line (12
columns for a construct at column 8 with tab size 4).  On the code the
`%(tabsize)s` placeholder receives the integer `self._tabsize`, so
each body line is prefixed by the decimal string `4` after the
8-column join indent, not by four extra spaces. -/
theorem template_body_lines_not_indented_by_tabsize :
    renderFunc "\n" (expandtabs 8) (scopeKeyword 8) (toString (4 : Nat))
        { name := "x", expr := "1", uuid := uuidHex 0 }
      = "\n        def __walrus_wrapper_x_f():\n        4\"\"\"Wrapper function for assignment expression `1`.\"\"\"\n        4nonlocal x\n        4x = 1\n        4return x"
    ∧ countOcc (renderFunc "\n" (expandtabs 8) (scopeKeyword 8) (toString (4 : Nat))
        { name := "x", expr := "1", uuid := uuidHex 0 }) "\n        4return x" = 1
    ∧ countOcc (renderFunc "\n" (expandtabs 8) (scopeKeyword 8) (toString (4 : Nat))
        { name := "x", expr := "1", uuid := uuidHex 0 }) "\n            return x" = 0
    ∧ (contextString 50 c8atom 8 4 "\n" 0).toOption.map
        (fun p => countOcc p.1 "\n        4return a") = some 1
    ∧ (contextString 50 c8atom 8 4 "\n" 0).toOption.map
        (fun p => countOcc p.1 "\n            return a") = some 0 :=
  ⟨rfl, rfl, rfl, rfl, rfl⟩

set_option maxRecDepth 1000000 in
/-- C5: wrapper records produced by any traversal from a fresh state
carry pairwise distinct unique ids, and the declaration loop of
`_concat` emits exactly one declaration per distinct captured name, in
sorted order, for every state; in particular two occurrences of the
construct with the same target name in one scope, `(a := 1) + (a :=
2)`, get distinct helper identifiers and a single declaration line for
`a`. -/
theorem single_decl_distinct_uuids :
    (∀ st : CtxState, (declNames st).Nodup ∧ (declNames st).Sorted (fun x y => strLe x y = true))
    ∧ (process 50 4 "\n" 0 (initState 0) (Walk.node c5expr)).toOption.map
        (fun st => (st.vars, st.funcs.map Wrapper.name, st.funcs.map Wrapper.uuid, declNames st))
      = some (["a", "a"], ["a", "a"], [uuidHex 0, uuidHex 1], ["a"])
    ∧ uuidHex 0 ≠ uuidHex 1
    ∧ ("__walrus_wrapper_a_" ++ uuidHex 0 ++ "()") ≠ ("__walrus_wrapper_a_" ++ uuidHex 1 ++ "()")
    ∧ (contextString 50 c5expr 0 4 "\n" 0).toOption.map
        (fun p => countOcc p.1 (declLine (expandtabs 0) "a" "\n")) = some 1
    ∧ (contextString 50 c5expr 0 4 "\n" 0).toOption.map
        (fun p => countOcc p.1 "def __walrus_wrapper_a_") = some 2
    ∧ (∀ (fuel ts : Nat) (ls : String) (col ctr : Nat) (n : Node) (st' : CtxState),
        process fuel ts ls col (initState ctr) (Walk.node n) = Except.ok st' →
          (st'.funcs.map Wrapper.uuid).Nodup) :=
  ⟨fun st => ⟨declNames_nodup st, declNames_sorted st⟩, rfl, by decide, by decide, rfl, rfl,
   fun fuel ts ls col ctr n st' h => process_uuids_nodup fuel ts ls col ctr (Walk.node n) st' h⟩

set_option maxRecDepth 1000000 in
/-- Witness for C5: the distinct-uuid property applied to the concrete
two-occurrences run. -/
theorem single_decl_distinct_uuids_witness :
    (c5state.funcs.map Wrapper.uuid).Nodup :=
  single_decl_distinct_uuids.2.2.2.2.2.2 50 4 "\n" 0 0 c5expr c5state (by rfl)

set_option maxRecDepth 1000000 in
/-- C6: for the nested occurrence `(y := (x := 1) + 1)` the expression
subtree is rewritten first by a nested Context at the same
indentation: the single outer wrapper records an expression source
that contains the inner occurrence's helper call once at its call
site, together with the inner helper's complete, well-formed rendered
definition (its `def` line, its `return x` body line and its
declaration line at the same zero-column indentation). -/
theorem nested_context_rewrites_inner_first :
    (process 50 4 "\n" 0 (initState 0) (Walk.node c6atom)).toOption.map
        (fun st => st.funcs.map (fun w =>
          (w.name, w.uuid,
           countOcc w.expr ("(__walrus_wrapper_x_" ++ uuidHex 1 ++ "())"),
           countOcc w.expr ("__walrus_wrapper_x_" ++ uuidHex 1 ++ "()"),
           countOcc w.expr ("def __walrus_wrapper_x_" ++ uuidHex 1 ++ "():"),
           countOcc w.expr "return x",
           countOcc w.expr (declLine (expandtabs 0) "x" "\n"))))
      = some [("y", uuidHex 0, 1, 2, 1, 1, 1)] := rfl

set_option maxRecDepth 1000000 in
/-- C7: when the source has no strict line-ending majority,
`guess_linesep` rejects a configured separator that is neither one of
the names CR, CRLF, LF (case-insensitively) nor one of the three
literal separators by raising the invalid-environment error, and for
each recognised value it returns the corresponding literal
separator. -/
theorem linesep_env_validation (code env : String)
    (_hmaj : specStrictMajority code = none) :
    (strToUpper env ≠ "CR" → strToUpper env ≠ "CRLF" → strToUpper env ≠ "LF" →
     env ≠ "\r" → env ≠ "\r\n" → env ≠ "\n" →
       guess_linesep code env = Except.error ("invlid line separator " ++ reprStr env))
    ∧ (strToUpper env = "CR" → guess_linesep code env = Except.ok "\r")
    ∧ (strToUpper env = "CRLF" → guess_linesep code env = Except.ok "\r\n")
    ∧ (strToUpper env = "LF" → guess_linesep code env = Except.ok "\n")
    ∧ ((env = "\r" ∨ env = "\r\n" ∨ env = "\n") → guess_linesep code env = Except.ok env) := by
  have he := guess_linesep_eq_envFallback code env
  refine ⟨?_, ?_, ?_, ?_, ?_⟩
  · intro h1 h2 h3 h4 h5 h6
    have hlit : ¬ (env = "\r" ∨ env = "\r\n" ∨ env = "\n") := by
      rintro (h | h | h)
      exacts [h4 h, h5 h, h6 h]
    rw [he]
    simp only [envFallback]
    rw [if_neg h1, if_neg h2, if_neg h3, if_neg hlit]
  · intro h
    rw [he]
    simp only [envFallback]
    rw [if_pos h]
  · intro h
    have hne1 : ¬ strToUpper env = "CR" := by rw [h]; decide
    rw [he]
    simp only [envFallback]
    rw [if_neg hne1, if_pos h]
  · intro h
    have hne1 : ¬ strToUpper env = "CR" := by rw [h]; decide
    have hne2 : ¬ strToUpper env = "CRLF" := by rw [h]; decide
    rw [he]
    simp only [envFallback]
    rw [if_neg hne1, if_neg hne2, if_pos h]
  · rintro (rfl | rfl | rfl) <;> rw [guess_linesep_eq_envFallback] <;> rfl

/-- Witness for C7: on the empty source (all buckets tie at zero) the
configured value tab rejects with the invalid-environment error, and
the lower-case name cr is accepted as carriage return. -/
theorem linesep_env_validation_witness :
    specStrictMajority "" = none
    ∧ guess_linesep "" "\t" = Except.error ("invlid line separator " ++ reprStr "\t")
    ∧ guess_linesep "" "cr" = Except.ok "\r" := by
  refine ⟨rfl, ?_, ?_⟩
  · exact (linesep_env_validation "" "\t" rfl).1 (by decide) (by decide) (by decide)
      (by decide) (by decide) (by decide)
  · exact (linesep_env_validation "" "cr" rfl).2.1 (by decide)

set_option maxRecDepth 1000000 in
/-- C8: the scoping keyword inside generated helpers is chosen by
nesting position: a Context at the outermost (module) column 0 renders
`global`, a Context at any positive column renders `nonlocal`, and the
choice is threaded through recursively created Contexts — the nested
example rendered at column 0 contains only `global` bindings (outer
and inner alike), and at column 4 only `nonlocal` bindings. -/
theorem scope_keyword_by_nesting :
    scopeKeyword 0 = "global"
    ∧ (∀ col : Nat, 0 < col → scopeKeyword col = "nonlocal")
    ∧ (contextString 50 c6atom 0 4 "\n" 0).toOption.map
        (fun p => (countOcc p.1 "global ", countOcc p.1 "nonlocal ")) = some (3, 0)
    ∧ (contextString 50 c6atom 4 4 "\n" 0).toOption.map
        (fun p => (countOcc p.1 "nonlocal ", countOcc p.1 "global ")) = some (3, 0) := by
  refine ⟨rfl, ?_, rfl, rfl⟩
  intro col h
  unfold scopeKeyword
  rw [if_pos h]

/-- Witness for C8: a nested-scope column renders `nonlocal`. -/
theorem scope_keyword_by_nesting_witness : scopeKeyword 4 = "nonlocal" :=
  scope_keyword_by_nesting.2.1 4 (by decide)

set_option maxRecDepth 1000000 in
/-- C9: because `_process_module` has an empty body, the traversal of
a module node returns its state untouched — no buffer output, no
captured names, no wrapper specs — and `convert` therefore returns the
empty string for every successfully parsed input, whatever its
content (and propagates the line-separator guess's failure
otherwise). -/
theorem module_traversal_empty_convert_empty (fuel ts : Nat) (cs : List Node) (env : String) :
    (∀ (ls : String) (st : CtxState),
        process (fuel + 1) ts ls 0 st (Walk.node (Node.module cs)) = Except.ok st)
    ∧ convert (fuel + 1) (Node.module cs) ts env
        = (guess_linesep (Node.get_code (Node.module cs)) env).map (fun _ => "") := by
  refine ⟨fun ls st => rfl, ?_⟩
  unfold convert
  cases h : guess_linesep (Node.get_code (Node.module cs)) env with
  | error e => rfl
  | ok ls => rfl

set_option maxRecDepth 1000000 in
/-- C10: every declaration statement assembled by `_concat` has the
exact textual form indent, name, an assignment from
`locales().get(...)` applied to the name's repr, then the line
separator; the lookup callee is the identifier `locales`, not the
builtin `locals`, and a capturing run's output references `locales`
and never `locals()`. -/
theorem decl_uses_locales_lookup (col : Nat) (name ls : String) :
    declLine (expandtabs col) name ls
      = expandtabs col ++ name ++ " = locales().get(" ++ reprStr name ++ ")" ++ ls
    ∧ countOcc (declLine "" "x" "\n") "locales().get(" = 1
    ∧ countOcc (declLine "" "x" "\n") "locals().get(" = 0
    ∧ (contextString 50 c5expr 0 4 "\n" 0).toOption.map
        (fun p => (countOcc p.1 "locales", countOcc p.1 "locals()")) = some (1, 0) :=
  ⟨rfl, rfl, rfl, rfl⟩

end Walrus
